import Mathlib

/-!
# PM QoS constraint aggregation (kernel/power/qos.c) — shallow embedding

This file embeds the PM QoS subsystem of `kernel/power/qos.c` in Lean.
Machine `s32` values are modelled as `Int` (the aggregation logic never
overflows in the claims considered), kernel `plist` priority lists as
ordinary Lean lists kept in ascending `prio` order, `cpumask` values as
lists of CPU numbers below `NR_CPUS`, and node/request pointer identity
as a numeric `id` field.  Notifier chains are modelled by whether the
`notifiers` pointer is non-null together with a `notified` flag recording
whether `blocking_notifier_call_chain` was invoked.  A `BUG()` branch is
modelled by returning `none`.
-/

/-- `NR_CPUS` of the build; the dreamlte (Exynos 8895) configuration has 8
possible CPUs.  The claims never depend on the concrete number. -/
def NR_CPUS : Nat := 8

/-- `PM_QOS_DEFAULT_VALUE` from `include/linux/pm_qos.h` (value `-1`). -/
def PM_QOS_DEFAULT_VALUE : Int := -1

/-- `enum pm_qos_type` from `include/linux/pm_qos.h`. -/
inductive PMQosType where
  | PM_QOS_MIN
  | PM_QOS_MAX
  | PM_QOS_FORCE_MAX
  | PM_QOS_SUM
deriving DecidableEq

export PMQosType (PM_QOS_MIN PM_QOS_MAX PM_QOS_FORCE_MAX PM_QOS_SUM)

/-- `enum pm_qos_req_action` from `include/linux/pm_qos.h`. -/
inductive PMQosReqAction where
  | PM_QOS_ADD_REQ
  | PM_QOS_UPDATE_REQ
  | PM_QOS_REMOVE_REQ
deriving DecidableEq

export PMQosReqAction (PM_QOS_ADD_REQ PM_QOS_UPDATE_REQ PM_QOS_REMOVE_REQ)

/-- `enum pm_qos_req_type` from `include/linux/pm_qos.h`: how the request
is scoped onto CPUs. `PM_QOS_REQ_ALL_CORES` is the zero (kzalloc default)
value. -/
inductive PMQosReqType where
  | PM_QOS_REQ_ALL_CORES
  | PM_QOS_REQ_AFFINE_CORES
  | PM_QOS_REQ_AFFINE_IRQ
deriving DecidableEq

export PMQosReqType (PM_QOS_REQ_ALL_CORES PM_QOS_REQ_AFFINE_CORES PM_QOS_REQ_AFFINE_IRQ)

/-- `struct pm_qos_request`: `id` models the pointer identity of the
request (its `plist_node` address), `prio` is `node.prio`, `cpusAffine`
the `cpus_affine` cpumask as the list of set bits (all `< NR_CPUS`),
`pm_qos_class` the class the request is attached to (0 = inactive),
`rtype` the request scoping type and `irq` the IRQ line for
`PM_QOS_REQ_AFFINE_IRQ` requests. -/
structure PMQosRequest where
  id : Nat
  prio : Int
  cpusAffine : List Nat
  pm_qos_class : Nat
  rtype : PMQosReqType
  irq : Nat
deriving DecidableEq

/-- The all-zero request produced by `kzalloc`. -/
def zeroRequest : PMQosRequest :=
  { id := 0, prio := 0, cpusAffine := [], pm_qos_class := 0,
    rtype := PM_QOS_REQ_ALL_CORES, irq := 0 }

/-- `cpumask_setall`: every possible CPU. -/
def cpumask_all : List Nat := List.range NR_CPUS

/-- `struct pm_qos_constraints`.  `notifiers : Bool` records whether the
`notifiers` pointer is non-null. -/
structure PMQosConstraints where
  list : List PMQosRequest
  target_value : Int
  targetPerCpu : List Int
  default_value : Int
  no_constraint_value : Int
  ctype : PMQosType
  notifiers : Bool
deriving DecidableEq

/-- `plist_add(node, head)`: insert keeping the list sorted by `prio`;
the kernel inserts a node after all nodes of less-or-equal priority
(before the first strictly greater one). -/
def plist_add (r : PMQosRequest) : List PMQosRequest → List PMQosRequest
  | [] => [r]
  | x :: xs => if r.prio < x.prio then r :: x :: xs else x :: plist_add r xs

/-- `plist_del(node, head)`: unlink the node (identified by pointer,
i.e. by `id`) from the list. -/
def plist_del (i : Nat) : List PMQosRequest → List PMQosRequest
  | [] => []
  | x :: xs => if x.id = i then xs else x :: plist_del i xs

/-- `pm_qos_get_value`: no-constraints default on an empty list, else
first node for `PM_QOS_MIN`, last node for `PM_QOS_MAX`/`PM_QOS_FORCE_MAX`,
sum of all nodes for `PM_QOS_SUM`.  The `default: BUG()` branch of the C
switch is unreachable because `ctype` ranges over the enum. -/
def pm_qos_get_value (c : PMQosConstraints) : Int :=
  match c.list with
  | [] => c.no_constraint_value
  | x :: xs =>
    match c.ctype with
    | PM_QOS_MIN => x.prio
    | PM_QOS_MAX => ((x :: xs).getLast (List.cons_ne_nil x xs)).prio
    | PM_QOS_FORCE_MAX => ((x :: xs).getLast (List.cons_ne_nil x xs)).prio
    | PM_QOS_SUM => ((x :: xs).map (fun r => r.prio)).sum

/-- `pm_qos_read_value`. -/
def pm_qos_read_value (c : PMQosConstraints) : Int := c.target_value

/-- `pm_qos_set_value`. -/
def pm_qos_set_value (c : PMQosConstraints) (value : Int) : PMQosConstraints :=
  { c with target_value := value }

/-- Inner loop of `pm_qos_set_value_for_cpus`: `for_each_cpu(cpu,
&req->cpus_affine)` running the per-type switch on `qos_val`; the
`default: BUG()` branch (reached for `PM_QOS_SUM`) yields `none`. -/
def qos_val_for_cpus (t : PMQosType) (prio : Int) :
    List Nat → List Int → Option (List Int)
  | [], qv => some qv
  | cpu :: cpus, qv =>
    match t with
    | PM_QOS_MIN =>
      qos_val_for_cpus t prio cpus
        (if qv.getD cpu 0 > prio then qv.set cpu prio else qv)
    | PM_QOS_MAX =>
      qos_val_for_cpus t prio cpus
        (if prio > qv.getD cpu 0 then qv.set cpu prio else qv)
    | PM_QOS_FORCE_MAX =>
      qos_val_for_cpus t prio cpus (qv.set cpu prio)
    | PM_QOS_SUM => none

/-- Outer loop of `pm_qos_set_value_for_cpus`:
`plist_for_each_entry(req, &c->list, node)`. -/
def qos_val_for_reqs (t : PMQosType) :
    List PMQosRequest → List Int → Option (List Int)
  | [], qv => some qv
  | r :: rs, qv =>
    match qos_val_for_cpus t r.prio r.cpusAffine qv with
    | none => none
    | some qv1 => qos_val_for_reqs t rs qv1

/-- `pm_qos_set_value_for_cpus`: recompute `target_per_cpu` starting
from `default_value` on every CPU; `none` models reaching `BUG()`. -/
def pm_qos_set_value_for_cpus (c : PMQosConstraints) : Option (List Int) :=
  qos_val_for_reqs c.ctype c.list (List.replicate NR_CPUS c.default_value)

/-- The outcome of a completed `pm_qos_update_target` call: the updated
constraints, the `int` return value, and whether
`blocking_notifier_call_chain` was invoked. -/
structure UpdateResult where
  c : PMQosConstraints
  ret : Int
  notified : Bool
deriving DecidableEq

/-- The request-list manipulation of `pm_qos_update_target`: compute
`new_value` (the class default when `PM_QOS_DEFAULT_VALUE` was passed)
and apply the action — `plist_del` for a removal, `plist_del` followed by
re-init and `plist_add` for an update, `plist_add` for an addition. -/
def target_list (c : PMQosConstraints) (req : PMQosRequest)
    (action : PMQosReqAction) (value : Int) : List PMQosRequest :=
  let new_value := if value = PM_QOS_DEFAULT_VALUE then c.default_value else value
  match action with
  | PM_QOS_REMOVE_REQ => plist_del req.id c.list
  | PM_QOS_UPDATE_REQ =>
    plist_add { req with prio := new_value } (plist_del req.id c.list)
  | PM_QOS_ADD_REQ =>
    plist_add { req with prio := new_value } c.list

/-- `pm_qos_update_target(c, req, action, value)` (the `notify_param`
plumbing only chooses the payload passed to notifiers and is not
modelled).  Returns `none` when `pm_qos_set_value_for_cpus` reaches
`BUG()`. -/
def pm_qos_update_target (c : PMQosConstraints) (req : PMQosRequest)
    (action : PMQosReqAction) (value : Int) : Option UpdateResult :=
  let prev_value := pm_qos_get_value c
  let list1 := target_list c req action value
  let c1 := { c with list := list1 }
  let curr_value := pm_qos_get_value c1
  let c2 := pm_qos_set_value c1 curr_value
  match pm_qos_set_value_for_cpus c2 with
  | none => none
  | some tpc =>
    let c3 := { c2 with targetPerCpu := tpc }
    if c.ctype = PM_QOS_FORCE_MAX then
      some { c := c3, ret := 1, notified := true }
    else if prev_value ≠ curr_value then
      some { c := c3, ret := 1, notified := c.notifiers }
    else
      some { c := c3, ret := 0, notified := false }

/-- `struct pm_qos_object`: a class's constraints together with its
miscdevice minor (the `name` string is irrelevant to the claims). -/
structure PMQosObject where
  constraints : PMQosConstraints
  minor : Nat
deriving DecidableEq

/-- Placeholder object used for out-of-range array reads; all array
accesses in the claims are guarded by the class index being in range. -/
def nullObject : PMQosObject :=
  { constraints :=
      { list := [], target_value := 0,
        targetPerCpu := List.replicate NR_CPUS 0,
        default_value := 0, no_constraint_value := 0,
        ctype := PM_QOS_MIN, notifiers := false },
    minor := 0 }

/-- The global `pm_qos_array` state: one object per class index
(index 0 is `null_pm_qos`). -/
abbrev PMQosState := List PMQosObject

/-- `pm_qos_request(pm_qos_class)`: read the current target value. -/
def pm_qos_request (st : PMQosState) (pm_qos_class : Nat) : Int :=
  pm_qos_read_value (st.getD pm_qos_class nullObject).constraints

/-- `pm_qos_request_for_cpu(pm_qos_class, cpu)`. -/
def pm_qos_request_for_cpu (st : PMQosState) (pm_qos_class cpu : Nat) : Int :=
  ((st.getD pm_qos_class nullObject).constraints).targetPerCpu.getD cpu 0

/-- `pm_qos_request_active(req)`. -/
def pm_qos_request_active (req : PMQosRequest) : Bool :=
  req.pm_qos_class ≠ 0

/-- The call pattern `pm_qos_update_target(pm_qos_array[class]->constraints,
req, action, value)` used by every caller: run the update on the class's
constraints and store the result back at that index. -/
def pm_qos_update_target_class (st : PMQosState) (pm_qos_class : Nat)
    (req : PMQosRequest) (action : PMQosReqAction) (value : Int) :
    Option (PMQosState × Int) :=
  match pm_qos_update_target (st.getD pm_qos_class nullObject).constraints
      req action value with
  | none => none
  | some res =>
    some (st.set pm_qos_class
            { (st.getD pm_qos_class nullObject) with constraints := res.c },
          res.ret)

/-- `__pm_qos_update_request`: skip the update when the value is
unchanged. -/
def pm_qos_update_request_unlocked (st : PMQosState) (req : PMQosRequest)
    (new_value : Int) : Option (PMQosState × PMQosRequest) :=
  if new_value ≠ req.prio then
    match pm_qos_update_target_class st req.pm_qos_class req
        PM_QOS_UPDATE_REQ new_value with
    | none => none
    | some (st1, _) => some (st1, req)
  else
    some (st, req)

/-- `pm_qos_add_request` (via `pm_qos_add_request_trace`; the `func`/`line`
trace fields and the delayed-work initialisation are not modelled).
`irqAffinity` stands for the result of the `PM_QOS_REQ_AFFINE_IRQ` setup:
`some mask` when `irq_can_set_affinity` holds and the affinity-notifier
registration succeeds (the IRQ's current affinity mask), `none` when the
request falls back to all cores.  Returns the state unchanged when the
request is already active; `none` models reaching `BUG()` downstream. -/
def pm_qos_add_request (st : PMQosState) (req : PMQosRequest)
    (pm_qos_class : Nat) (value : Int) (irqAffinity : Option (List Nat)) :
    Option (PMQosState × PMQosRequest) :=
  if pm_qos_request_active req then
    some (st, req)
  else
    let req1 :=
      match req.rtype with
      | PM_QOS_REQ_AFFINE_CORES =>
        if req.cpusAffine = [] then
          { req with rtype := PM_QOS_REQ_ALL_CORES, cpusAffine := cpumask_all }
        else req
      | PM_QOS_REQ_AFFINE_IRQ =>
        match irqAffinity with
        | some mask => { req with cpusAffine := mask }
        | none =>
          { req with rtype := PM_QOS_REQ_ALL_CORES, cpusAffine := cpumask_all }
      | PM_QOS_REQ_ALL_CORES =>
        { req with cpusAffine := cpumask_all }
    let req2 := { req1 with pm_qos_class := pm_qos_class }
    match pm_qos_update_target_class st pm_qos_class req2
        PM_QOS_ADD_REQ value with
    | none => none
    | some (st1, _) => some (st1, req2)

/-- `pm_qos_update_request` (delayed-work cancellation not modelled).
Returns the state unchanged when the request is not active. -/
def pm_qos_update_request (st : PMQosState) (req : PMQosRequest)
    (new_value : Int) : Option (PMQosState × PMQosRequest) :=
  if ¬ pm_qos_request_active req then
    some (st, req)
  else
    pm_qos_update_request_unlocked st req new_value

/-- `pm_qos_remove_request` (delayed-work cancellation and the IRQ
affinity-notifier teardown are not modelled; `memset(req, 0, ...)`
becomes returning `zeroRequest`).  Returns the state unchanged when the
request is not active. -/
def pm_qos_remove_request (st : PMQosState) (req : PMQosRequest) :
    Option (PMQosState × PMQosRequest) :=
  if ¬ pm_qos_request_active req then
    some (st, req)
  else
    match pm_qos_update_target_class st req.pm_qos_class req
        PM_QOS_REMOVE_REQ PM_QOS_DEFAULT_VALUE with
    | none => none
    | some (st1, _) => some (st1, zeroRequest)

/-- `pm_qos_irq_notify`: copy the new IRQ affinity mask into
`cpus_affine` and re-run the update with the request's existing value. -/
def pm_qos_irq_notify (st : PMQosState) (req : PMQosRequest)
    (mask : List Nat) : Option (PMQosState × Int) :=
  let req1 := { req with cpusAffine := mask }
  pm_qos_update_target_class st req.pm_qos_class req1
    PM_QOS_UPDATE_REQ req.prio

/-- `pm_qos_irq_release`: set `cpus_affine` to all CPUs and update the
request to the class's default value. -/
def pm_qos_irq_release (st : PMQosState) (req : PMQosRequest) :
    Option (PMQosState × Int) :=
  let c := (st.getD req.pm_qos_class nullObject).constraints
  let req1 := { req with cpusAffine := cpumask_all }
  pm_qos_update_target_class st req.pm_qos_class req1
    PM_QOS_UPDATE_REQ c.default_value

/-- `struct pm_qos_flags_request`; `id` models pointer identity and
`flags` the `s32` flags word (flags are non-negative bit masks). -/
structure PMQosFlagsRequest where
  id : Nat
  flags : Nat
deriving DecidableEq

/-- `struct pm_qos_flags`. -/
structure PMQosFlags where
  list : List PMQosFlagsRequest
  effective_flags : Nat
deriving DecidableEq

/-- `list_del(&req->node)` on the flags list. -/
def flags_list_del (i : Nat) : List PMQosFlagsRequest → List PMQosFlagsRequest
  | [] => []
  | x :: xs => if x.id = i then xs else x :: flags_list_del i xs

/-- The recomputation loop of `pm_qos_flags_remove_req`: OR together the
flags of every remaining request. -/
def flags_list_or (l : List PMQosFlagsRequest) : Nat :=
  l.foldl (fun val r => val ||| r.flags) 0

/-- `pm_qos_flags_remove_req(pqf, req)`. -/
def pm_qos_flags_remove_req (pqf : PMQosFlags) (i : Nat) : PMQosFlags :=
  let l1 := flags_list_del i pqf.list
  { list := l1, effective_flags := flags_list_or l1 }

/-- `pm_qos_update_flags(pqf, req, action, val)`: returns the updated set
and the `bool` result. -/
def pm_qos_update_flags (pqf : PMQosFlags) (req : PMQosFlagsRequest)
    (action : PMQosReqAction) (val : Nat) : PMQosFlags × Bool :=
  let prev_value := if pqf.list.isEmpty then 0 else pqf.effective_flags
  let pqf1 :=
    match action with
    | PM_QOS_REMOVE_REQ => pm_qos_flags_remove_req pqf req.id
    | PM_QOS_UPDATE_REQ =>
      let p := pm_qos_flags_remove_req pqf req.id
      { list := p.list ++ [{ req with flags := val }],
        effective_flags := p.effective_flags ||| val }
    | PM_QOS_ADD_REQ =>
      { list := pqf.list ++ [{ req with flags := val }],
        effective_flags := pqf.effective_flags ||| val }
  let curr_value := if pqf1.list.isEmpty then 0 else pqf1.effective_flags
  (pqf1, decide (prev_value ≠ curr_value))

/-- `-EPERM`. -/
def EPERM_err : Int := -1
/-- `-ENOMEM`. -/
def ENOMEM_err : Int := -12

/-- `find_pm_qos_object_by_minor`: scan classes from
`PM_QOS_CPU_DMA_LATENCY` (= 1) upward; `none` models the `-1` result. -/
def find_pm_qos_object_by_minor (st : PMQosState) (minor : Nat) : Option Nat :=
  (List.range' 1 (st.length - 1)).find?
    (fun i => (st.getD i nullObject).minor = minor)

/-- `pm_qos_power_open`: `allocOk` is whether `kzalloc` succeeds and
`newId` the identity of the freshly allocated request.  The outer `none`
models reaching `BUG()` inside `pm_qos_add_request`; otherwise the result
is the error code or the new state with the allocated request. -/
def pm_qos_power_open (st : PMQosState) (minor : Nat) (allocOk : Bool)
    (newId : Nat) : Option (Except Int (PMQosState × PMQosRequest)) :=
  match find_pm_qos_object_by_minor st minor with
  | some pm_qos_class =>
    if allocOk then
      match pm_qos_add_request st { zeroRequest with id := newId }
          pm_qos_class PM_QOS_DEFAULT_VALUE none with
      | none => none
      | some (st1, req1) => some (.ok (st1, req1))
    else
      some (.error ENOMEM_err)
  | none => some (.error EPERM_err)

/-- `pm_qos_power_release`: remove the request created at open (the
`kfree` is not modelled). -/
def pm_qos_power_release (st : PMQosState) (req : PMQosRequest) :
    Option PMQosState :=
  match pm_qos_remove_request st req with
  | none => none
  | some (st1, _) => some st1

/-! ## Specification-side definitions

These follow the spec's words ("aggregates min/max/sum targets",
per-CPU aggregation over the requests covering a CPU) rather than the
code's first/last-node shortcuts, and are compared with the embedded
code in the theorems below. -/

/-- Aggregate of a constraints object as the spec states it: the
`no_constraint_value` on an empty list, otherwise the minimum, maximum
or sum of all request values according to the type. -/
def aggregateSpec (c : PMQosConstraints) : Int :=
  match c.list with
  | [] => c.no_constraint_value
  | x :: xs =>
    match c.ctype with
    | PM_QOS_MIN => (xs.map (fun r => r.prio)).foldl min x.prio
    | PM_QOS_MAX => (xs.map (fun r => r.prio)).foldl max x.prio
    | PM_QOS_FORCE_MAX => (xs.map (fun r => r.prio)).foldl max x.prio
    | PM_QOS_SUM => ((x :: xs).map (fun r => r.prio)).sum

/-- Per-CPU aggregate as the spec states it: fold the values of exactly
those requests whose affinity mask contains the CPU, starting from the
constraints' `default_value` (only `PM_QOS_MIN` and `PM_QOS_MAX` are
covered by the claim; the other types keep the code's last-writer /
undefined behaviour out of scope). -/
def perCpuAggregateSpec (c : PMQosConstraints) (cpu : Nat) : Int :=
  let covering := (c.list.filter (fun r => cpu ∈ r.cpusAffine)).map (fun r => r.prio)
  match c.ctype with
  | PM_QOS_MIN => covering.foldl min c.default_value
  | PM_QOS_MAX => covering.foldl max c.default_value
  | PM_QOS_FORCE_MAX => covering.getLastD c.default_value
  | PM_QOS_SUM => c.default_value

/-- OR of the flags of all requests in a flags set, as the spec states
it for `effective_flags`. -/
def flagsAggregateSpec (pqf : PMQosFlags) : Nat :=
  (pqf.list.map (fun r => r.flags)).foldr (fun a b => a ||| b) 0

/-! ## Priority-list invariants -/

/-- The kernel `plist` invariant: nodes appear in ascending priority
order. -/
def PlistSorted (l : List PMQosRequest) : Prop :=
  l.Pairwise (fun a b => a.prio ≤ b.prio)

instance (l : List PMQosRequest) : Decidable (PlistSorted l) := by
  unfold PlistSorted; infer_instance

/-- Shared example fixtures used by the concrete witnesses below. -/
def exConstraintsMin : PMQosConstraints :=
  { list := [], target_value := 200,
    targetPerCpu := List.replicate NR_CPUS 100,
    default_value := 100, no_constraint_value := 200,
    ctype := PM_QOS_MIN, notifiers := true }

def exReq1 : PMQosRequest :=
  { id := 1, prio := 0, cpusAffine := [0], pm_qos_class := 1,
    rtype := PM_QOS_REQ_ALL_CORES, irq := 0 }

def exState : PMQosState :=
  [nullObject, { constraints := exConstraintsMin, minor := 5 }]

/-- The result of adding `exReq1` with value 7 to `exConstraintsMin`. -/
def exResultAdd7 : UpdateResult :=
  { c := { exConstraintsMin with
            list := [{ exReq1 with prio := 7 }],
            target_value := 7,
            targetPerCpu := [7, 100, 100, 100, 100, 100, 100, 100] },
    ret := 1, notified := true }

/-! ## Notification behaviour (claim C2) -/

/-- A `PM_QOS_FORCE_MAX` class with one request of value 5 covering
CPU 0, as `device_throughput` would hold. -/
def exConstraintsFMax : PMQosConstraints :=
  { list := [{ id := 1, prio := 5, cpusAffine := [0], pm_qos_class := 7,
               rtype := PM_QOS_REQ_ALL_CORES, irq := 0 }],
    target_value := 5,
    targetPerCpu := [5, 0, 0, 0, 0, 0, 0, 0],
    default_value := 0, no_constraint_value := 0,
    ctype := PM_QOS_FORCE_MAX, notifiers := true }

def exReqFMax : PMQosRequest :=
  { id := 1, prio := 5, cpusAffine := [0], pm_qos_class := 7,
    rtype := PM_QOS_REQ_ALL_CORES, irq := 0 }

/-! ## The PM_QOS_SUM BUG (claim C5) -/

/-- A `PM_QOS_SUM` class with no requests, as `memory_bandwidth` is
registered. -/
def exConstraintsSum : PMQosConstraints :=
  { list := [], target_value := 0,
    targetPerCpu := List.replicate NR_CPUS 0,
    default_value := 0, no_constraint_value := 0,
    ctype := PM_QOS_SUM, notifiers := true }

def exReqSum : PMQosRequest :=
  { id := 1, prio := 0, cpusAffine := cpumask_all, pm_qos_class := 12,
    rtype := PM_QOS_REQ_ALL_CORES, irq := 0 }

/-- The state after adding value 7 for class 1 in `exState`. -/
def exStateAfterAdd7 : PMQosState :=
  [nullObject, { constraints := exResultAdd7.c, minor := 5 }]

/-! ## IRQ affinity handlers (claim C7) -/

/-- Look a request up in a priority list by its pointer identity. -/
def findReq (i : Nat) (l : List PMQosRequest) : Option PMQosRequest :=
  l.find? (fun r => r.id == i)

/-- Fixtures for the C7 witness: a one-request `PM_QOS_MIN` class whose
request is IRQ-affine. -/
def exReqIrq : PMQosRequest :=
  { id := 1, prio := 3, cpusAffine := [0], pm_qos_class := 1,
    rtype := PM_QOS_REQ_AFFINE_IRQ, irq := 17 }

def exConstraintsIrq : PMQosConstraints :=
  { list := [exReqIrq], target_value := 3,
    targetPerCpu := [3, 100, 100, 100, 100, 100, 100, 100],
    default_value := 100, no_constraint_value := 200,
    ctype := PM_QOS_MIN, notifiers := true }

def exStateIrq : PMQosState :=
  [nullObject, { constraints := exConstraintsIrq, minor := 6 }]

/-- The state after `pm_qos_irq_notify` moves the request onto CPU 1. -/
def exStateIrqNotify : PMQosState :=
  [nullObject,
   { constraints :=
       { exConstraintsIrq with
         list := [{ exReqIrq with cpusAffine := [1] }],
         targetPerCpu := [100, 3, 100, 100, 100, 100, 100, 100] },
     minor := 6 }]

/-- The state after `pm_qos_irq_release` resets the request. -/
def exStateIrqRelease : PMQosState :=
  [nullObject,
   { constraints :=
       { exConstraintsIrq with
         list := [{ exReqIrq with cpusAffine := cpumask_all, prio := 100 }],
         target_value := 100,
         targetPerCpu := List.replicate NR_CPUS 100 },
     minor := 6 }]

/-! ## Flags sets (claim C8) -/

/-- OR of the flags of every request of a list, spec-side form. -/
def flagsOrSpec (l : List PMQosFlagsRequest) : Nat :=
  (l.map (fun r => r.flags)).foldr (fun a b => a ||| b) 0

/-- Fixtures for the C8 witness. -/
def exFlags : PMQosFlags :=
  { list := [{ id := 1, flags := 3 }], effective_flags := 3 }

def exFlagsReq : PMQosFlagsRequest := { id := 2, flags := 0 }

def exFlagsAfter : PMQosFlags :=
  { list := [{ id := 1, flags := 3 }, { id := 2, flags := 4 }],
    effective_flags := 7 }

/-- Fixtures for the C10 witness: the state after opening the class-1
misc device (minor 5) with fresh request identity 9. -/
def exReqOpen : PMQosRequest :=
  { id := 9, prio := 0, cpusAffine := cpumask_all, pm_qos_class := 1,
    rtype := PM_QOS_REQ_ALL_CORES, irq := 0 }

def exStateOpen : PMQosState :=
  [nullObject,
   { constraints :=
       { exConstraintsMin with
         list := [{ exReqOpen with prio := 100 }],
         target_value := 100 },
     minor := 5 }]

theorem mem_plist_add {a r : PMQosRequest} {l : List PMQosRequest} :
    a ∈ plist_add r l ↔ a = r ∨ a ∈ l := by
  induction l with
  | nil => simp [plist_add]
  | cons x xs ih =>
    by_cases h : r.prio < x.prio
    · simp [plist_add, h]
    · simp [plist_add, h, ih]
      tauto

theorem plist_add_sorted {r : PMQosRequest} {l : List PMQosRequest}
    (hs : PlistSorted l) : PlistSorted (plist_add r l) := by
  induction l with
  | nil => simp [plist_add, PlistSorted]
  | cons x xs ih =>
    rcases hs with _ | ⟨hx, hxs⟩
    by_cases h : r.prio < x.prio
    · simp only [PlistSorted, plist_add, if_pos h]
      refine List.Pairwise.cons ?_ (List.Pairwise.cons hx hxs)
      intro b hb
      rcases List.mem_cons.mp hb with hb | hb
      · subst hb; exact le_of_lt h
      · exact le_trans (le_of_lt h) (hx b hb)
    · simp only [plist_add, if_neg h]
      refine List.Pairwise.cons ?_ (ih hxs)
      intro b hb
      rcases mem_plist_add.mp hb with hb | hb
      · subst hb; exact le_of_not_lt h
      · exact hx b hb

theorem plist_del_sublist (i : Nat) (l : List PMQosRequest) :
    (plist_del i l).Sublist l := by
  induction l with
  | nil => simp [plist_del]
  | cons x xs ih =>
    by_cases h : x.id = i
    · simp only [plist_del, if_pos h]
      exact List.sublist_cons_self x xs
    · simpa [plist_del, h] using List.Sublist.cons₂ x ih

theorem plist_del_sorted {i : Nat} {l : List PMQosRequest}
    (hs : PlistSorted l) : PlistSorted (plist_del i l) :=
  List.Pairwise.sublist (plist_del_sublist i l) hs

theorem mem_plist_del {a : PMQosRequest} {i : Nat} {l : List PMQosRequest}
    (h : a ∈ plist_del i l) : a ∈ l :=
  (plist_del_sublist i l).mem h

theorem foldl_min_of_le {l : List Int} {a : Int} (h : ∀ b ∈ l, a ≤ b) :
    l.foldl min a = a := by
  induction l generalizing a with
  | nil => rfl
  | cons x xs ih =>
    have hax : a ≤ x := h x (List.mem_cons_self x xs)
    simp only [List.foldl_cons, min_eq_left hax]
    exact ih fun b hb => h b (List.mem_cons_of_mem x hb)

/-- In a sorted priority list the first node carries the minimum value. -/
theorem sorted_head_eq_min {x : PMQosRequest} {xs : List PMQosRequest}
    (hs : PlistSorted (x :: xs)) :
    (xs.map (fun r => r.prio)).foldl min x.prio = x.prio := by
  rcases hs with _ | ⟨hx, _⟩
  refine foldl_min_of_le ?_
  intro b hb
  rcases List.mem_map.mp hb with ⟨r, hr, rfl⟩
  exact hx r hr

/-- In a sorted priority list the last node carries the maximum value. -/
theorem sorted_getLast_eq_max {x : PMQosRequest} {xs : List PMQosRequest}
    (hs : PlistSorted (x :: xs)) :
    ((x :: xs).getLast (List.cons_ne_nil x xs)).prio =
      (xs.map (fun r => r.prio)).foldl max x.prio := by
  induction xs generalizing x with
  | nil => rfl
  | cons y ys ih =>
    rcases hs with _ | ⟨hx, hys⟩
    have hxy : x.prio ≤ y.prio := hx y (List.mem_cons_self y ys)
    have h1 : ((x :: y :: ys).getLast (List.cons_ne_nil x (y :: ys))) =
        ((y :: ys).getLast (List.cons_ne_nil y ys)) := by
      simp [List.getLast_cons]
    rw [h1, ih hys]
    simp [max_eq_right hxy]

/-- `pm_qos_get_value` computes exactly the spec-level aggregate on a
sorted priority list. -/
theorem get_value_eq_aggregateSpec {c : PMQosConstraints}
    (hs : PlistSorted c.list) : pm_qos_get_value c = aggregateSpec c := by
  unfold pm_qos_get_value aggregateSpec
  cases hl : c.list with
  | nil => rfl
  | cons x xs =>
    rw [hl] at hs
    cases c.ctype with
    | PM_QOS_MIN => exact (sorted_head_eq_min hs).symm
    | PM_QOS_MAX => exact sorted_getLast_eq_max hs
    | PM_QOS_FORCE_MAX => exact sorted_getLast_eq_max hs
    | PM_QOS_SUM => rfl

/-- Structural characterisation of a completed `pm_qos_update_target`
call, shared by the claim proofs below. -/
theorem pm_qos_update_target_char {c : PMQosConstraints} {req : PMQosRequest}
    {action : PMQosReqAction} {value : Int} {res : UpdateResult}
    (h : pm_qos_update_target c req action value = some res) :
    res.c = { c with
                list := target_list c req action value,
                target_value :=
                  pm_qos_get_value { c with list := target_list c req action value },
                targetPerCpu := res.c.targetPerCpu } ∧
    pm_qos_set_value_for_cpus
        { c with
            list := target_list c req action value,
            target_value :=
              pm_qos_get_value { c with list := target_list c req action value } } =
      some res.c.targetPerCpu ∧
    ((c.ctype = PM_QOS_FORCE_MAX ∧ res.ret = 1 ∧ res.notified = true) ∨
     (c.ctype ≠ PM_QOS_FORCE_MAX ∧
        pm_qos_get_value c ≠
          pm_qos_get_value { c with list := target_list c req action value } ∧
        res.ret = 1 ∧ res.notified = c.notifiers) ∨
     (c.ctype ≠ PM_QOS_FORCE_MAX ∧
        pm_qos_get_value c =
          pm_qos_get_value { c with list := target_list c req action value } ∧
        res.ret = 0 ∧ res.notified = false)) := by
  unfold pm_qos_update_target at h
  simp only [pm_qos_set_value] at h
  rcases ho : pm_qos_set_value_for_cpus
      { c with
          list := target_list c req action value,
          target_value :=
            pm_qos_get_value { c with list := target_list c req action value } } with
    _ | tpc
  · rw [ho] at h
    dsimp only at h
    exact absurd h (by simp)
  · rw [ho] at h
    dsimp only at h
    by_cases hf : c.ctype = PM_QOS_FORCE_MAX
    · rw [if_pos hf] at h
      obtain rfl := Option.some.inj h
      exact ⟨rfl, rfl, Or.inl ⟨hf, rfl, rfl⟩⟩
    · rw [if_neg hf] at h
      by_cases hch : pm_qos_get_value c ≠
          pm_qos_get_value { c with list := target_list c req action value }
      · rw [if_pos hch] at h
        obtain rfl := Option.some.inj h
        exact ⟨rfl, rfl, Or.inr (Or.inl ⟨hf, hch, rfl, rfl⟩)⟩
      · rw [if_neg hch] at h
        obtain rfl := Option.some.inj h
        exact ⟨rfl, rfl, Or.inr (Or.inr ⟨hf, not_not.mp hch, rfl, rfl⟩)⟩

/-- The list produced by any `pm_qos_update_target` action on a sorted
list is sorted. -/
theorem target_list_sorted {c : PMQosConstraints} {req : PMQosRequest}
    {action : PMQosReqAction} {value : Int} (hs : PlistSorted c.list) :
    PlistSorted (target_list c req action value) := by
  unfold target_list
  cases action with
  | PM_QOS_ADD_REQ => exact plist_add_sorted hs
  | PM_QOS_UPDATE_REQ => exact plist_add_sorted (plist_del_sorted hs)
  | PM_QOS_REMOVE_REQ => exact plist_del_sorted hs

theorem sorted_headD_le {l : List PMQosRequest} (hs : PlistSorted l) :
    ∀ r ∈ l, (l.headD zeroRequest).prio ≤ r.prio := by
  cases l with
  | nil => intro r hr; cases hr
  | cons x xs =>
    rcases hs with _ | ⟨hx, _⟩
    intro r hr
    rcases List.mem_cons.mp hr with rfl | hr
    · exact le_refl _
    · exact hx r hr

theorem sorted_le_getLastD {l : List PMQosRequest} (hs : PlistSorted l) :
    ∀ r ∈ l, r.prio ≤ (l.getLastD zeroRequest).prio := by
  induction l with
  | nil => intro r hr; cases hr
  | cons x xs ih =>
    rcases hs with _ | ⟨hx, hxs⟩
    intro r hr
    cases xs with
    | nil =>
      rcases List.mem_cons.mp hr with rfl | hr
      · exact le_refl _
      · cases hr
    | cons y ys =>
      have hlast : ((x :: y :: ys).getLastD zeroRequest) =
          ((y :: ys).getLastD zeroRequest) := by
        simp [List.getLastD_cons]
      rw [hlast]
      rcases List.mem_cons.mp hr with rfl | hr
      · exact le_trans (hx y (List.mem_cons_self y ys))
          (ih hxs y (List.mem_cons_self y ys))
      · exact ih hxs r hr

/-- C1: for every constraints object, the aggregate target computed by
`pm_qos_get_value` (stored by `pm_qos_update_target` into `target_value`
and returned by `pm_qos_request`) is the `no_constraint_value` on an
empty request list, and otherwise the minimum of the request values for
`PM_QOS_MIN`, the maximum for `PM_QOS_MAX`/`PM_QOS_FORCE_MAX`, and the
sum for `PM_QOS_SUM`. -/
theorem pm_qos_aggregate_correct (c : PMQosConstraints) (req : PMQosRequest)
    (action : PMQosReqAction) (value : Int) (st : PMQosState)
    (pm_qos_class : Nat) (res : UpdateResult) (hs : PlistSorted c.list)
    (hres : pm_qos_update_target c req action value = some res) :
    pm_qos_get_value c = aggregateSpec c ∧
    res.c.target_value = aggregateSpec res.c ∧
    pm_qos_request st pm_qos_class =
      pm_qos_read_value ((st.getD pm_qos_class nullObject).constraints) := by
  obtain ⟨hc, -, -⟩ := pm_qos_update_target_char hres
  refine ⟨get_value_eq_aggregateSpec hs, ?_, rfl⟩
  rw [hc]
  exact get_value_eq_aggregateSpec (target_list_sorted hs)

/-- Witness for C1: a concrete `PM_QOS_MIN` class, adding a request with
value 7. -/
theorem pm_qos_aggregate_correct_witness :
    pm_qos_get_value exConstraintsMin = aggregateSpec exConstraintsMin ∧
    exResultAdd7.c.target_value = aggregateSpec exResultAdd7.c ∧
    pm_qos_request exState 1 =
      pm_qos_read_value ((exState.getD 1 nullObject).constraints) :=
  pm_qos_aggregate_correct exConstraintsMin exReq1 PM_QOS_ADD_REQ 7 exState 1
    exResultAdd7 (by decide) (by decide)

/-- C4: the request list of a constraints object stays ordered by value
across every `pm_qos_update_target` add, update or remove action, so the
first node always holds the smallest and the last node the largest
value. -/
theorem pm_qos_update_target_keeps_order (c : PMQosConstraints)
    (req : PMQosRequest) (action : PMQosReqAction) (value : Int)
    (res : UpdateResult) (hs : PlistSorted c.list)
    (hres : pm_qos_update_target c req action value = some res) :
    PlistSorted res.c.list ∧
    ∀ r ∈ res.c.list,
      (res.c.list.headD zeroRequest).prio ≤ r.prio ∧
      r.prio ≤ (res.c.list.getLastD zeroRequest).prio := by
  obtain ⟨hc, -, -⟩ := pm_qos_update_target_char hres
  rw [hc]
  have hsort : PlistSorted (target_list c req action value) :=
    target_list_sorted hs
  exact ⟨hsort, fun r hr =>
    ⟨sorted_headD_le hsort r hr, sorted_le_getLastD hsort r hr⟩⟩

/-- Witness for C4: adding a request to a concrete one-element class
keeps the list sorted with extremal first and last nodes. -/
theorem pm_qos_update_target_keeps_order_witness :
    PlistSorted exResultAdd7.c.list ∧
    ∀ r ∈ exResultAdd7.c.list,
      (exResultAdd7.c.list.headD zeroRequest).prio ≤ r.prio ∧
      r.prio ≤ (exResultAdd7.c.list.getLastD zeroRequest).prio :=
  pm_qos_update_target_keeps_order exConstraintsMin exReq1 PM_QOS_ADD_REQ 7
    exResultAdd7 (by decide) (by decide)

/-! ## Per-CPU aggregation (claim C3) -/

theorem getD_set_self {l : List Int} {i : Nat} (v : Int) (h : i < l.length) :
    (l.set i v).getD i 0 = v := by
  simp [List.getD_eq_getElem?_getD, List.getElem?_set_self, h]

theorem getD_set_ne {l : List Int} {i j : Nat} (v : Int) (h : j ≠ i) :
    (l.set j v).getD i 0 = l.getD i 0 := by
  simp [List.getD_eq_getElem?_getD, List.getElem?_set_ne h]

theorem getD_replicate {n : Nat} {v : Int} {i : Nat} (h : i < n) :
    (List.replicate n v).getD i 0 = v := by
  simp [List.getD_eq_getElem?_getD, List.getElem?_replicate, h]

theorem qos_val_for_cpus_length {t : PMQosType} {p : Int} {mask : List Nat}
    {qv qv' : List Int} (h : qos_val_for_cpus t p mask qv = some qv') :
    qv'.length = qv.length := by
  induction mask generalizing qv with
  | nil =>
    obtain rfl := Option.some.inj h
    rfl
  | cons cpu cpus ih =>
    cases t with
    | PM_QOS_MIN =>
      rw [qos_val_for_cpus] at h
      rw [ih h]
      split <;> simp
    | PM_QOS_MAX =>
      rw [qos_val_for_cpus] at h
      rw [ih h]
      split <;> simp
    | PM_QOS_FORCE_MAX =>
      rw [qos_val_for_cpus] at h
      rw [ih h]
      simp
    | PM_QOS_SUM => exact absurd h (by simp [qos_val_for_cpus])

theorem qos_val_for_cpus_min_getD {p : Int} {mask : List Nat}
    {qv qv' : List Int} {cpu : Nat}
    (h : qos_val_for_cpus PM_QOS_MIN p mask qv = some qv')
    (hcpu : cpu < qv.length) :
    qv'.getD cpu 0 =
      if cpu ∈ mask then min (qv.getD cpu 0) p else qv.getD cpu 0 := by
  induction mask generalizing qv with
  | nil =>
    obtain rfl := Option.some.inj h
    simp
  | cons c0 cs ih =>
    rw [qos_val_for_cpus] at h
    have hlen : (if qv.getD c0 0 > p then qv.set c0 p else qv).length =
        qv.length := by split <;> simp
    have step : (if qv.getD c0 0 > p then qv.set c0 p else qv).getD cpu 0 =
        if cpu = c0 then min (qv.getD cpu 0) p else qv.getD cpu 0 := by
      by_cases hec : cpu = c0
      · subst hec
        by_cases hgt : qv.getD cpu 0 > p
        · rw [if_pos hgt, getD_set_self p hcpu, if_pos rfl,
            min_eq_right (le_of_lt hgt)]
        · rw [if_neg hgt, if_pos rfl,
            min_eq_left (le_of_not_lt hgt)]
      · by_cases hgt : qv.getD c0 0 > p
        · rw [if_pos hgt, getD_set_ne p (Ne.symm hec), if_neg hec]
        · rw [if_neg hgt, if_neg hec]
    rw [ih h (by rw [hlen]; exact hcpu), step]
    by_cases hec : cpu = c0
    · subst hec
      by_cases hcs : cpu ∈ cs
      · simp [hcs, min_assoc]
      · simp [hcs]
    · by_cases hcs : cpu ∈ cs
      · simp [hcs, hec]
      · simp [hcs, hec]

theorem qos_val_for_cpus_max_getD {p : Int} {mask : List Nat}
    {qv qv' : List Int} {cpu : Nat}
    (h : qos_val_for_cpus PM_QOS_MAX p mask qv = some qv')
    (hcpu : cpu < qv.length) :
    qv'.getD cpu 0 =
      if cpu ∈ mask then max (qv.getD cpu 0) p else qv.getD cpu 0 := by
  induction mask generalizing qv with
  | nil =>
    obtain rfl := Option.some.inj h
    simp
  | cons c0 cs ih =>
    rw [qos_val_for_cpus] at h
    have hlen : (if p > qv.getD c0 0 then qv.set c0 p else qv).length =
        qv.length := by split <;> simp
    have step : (if p > qv.getD c0 0 then qv.set c0 p else qv).getD cpu 0 =
        if cpu = c0 then max (qv.getD cpu 0) p else qv.getD cpu 0 := by
      by_cases hec : cpu = c0
      · subst hec
        by_cases hgt : p > qv.getD cpu 0
        · rw [if_pos hgt, getD_set_self p hcpu, if_pos rfl,
            max_eq_right (le_of_lt hgt)]
        · rw [if_neg hgt, if_pos rfl,
            max_eq_left (le_of_not_lt hgt)]
      · by_cases hgt : p > qv.getD c0 0
        · rw [if_pos hgt, getD_set_ne p (Ne.symm hec), if_neg hec]
        · rw [if_neg hgt, if_neg hec]
    rw [ih h (by rw [hlen]; exact hcpu), step]
    by_cases hec : cpu = c0
    · subst hec
      by_cases hcs : cpu ∈ cs
      · simp [hcs, max_assoc]
      · simp [hcs]
    · by_cases hcs : cpu ∈ cs
      · simp [hcs, hec]
      · simp [hcs, hec]

theorem qos_val_for_reqs_length {t : PMQosType} {reqs : List PMQosRequest}
    {qv qv' : List Int} (h : qos_val_for_reqs t reqs qv = some qv') :
    qv'.length = qv.length := by
  induction reqs generalizing qv with
  | nil =>
    obtain rfl := Option.some.inj h
    rfl
  | cons r rs ih =>
    rw [qos_val_for_reqs] at h
    rcases hi : qos_val_for_cpus t r.prio r.cpusAffine qv with _ | qv1
    · rw [hi] at h; exact absurd h (by simp)
    · rw [hi] at h
      dsimp only at h
      rw [ih h, qos_val_for_cpus_length hi]

theorem qos_val_for_reqs_min_getD {reqs : List PMQosRequest}
    {qv qv' : List Int} {cpu : Nat}
    (h : qos_val_for_reqs PM_QOS_MIN reqs qv = some qv')
    (hcpu : cpu < qv.length) :
    qv'.getD cpu 0 =
      ((reqs.filter (fun r => cpu ∈ r.cpusAffine)).map
        (fun r => r.prio)).foldl min (qv.getD cpu 0) := by
  induction reqs generalizing qv with
  | nil =>
    obtain rfl := Option.some.inj h
    simp
  | cons r rs ih =>
    rw [qos_val_for_reqs] at h
    rcases hi : qos_val_for_cpus PM_QOS_MIN r.prio r.cpusAffine qv with _ | qv1
    · rw [hi] at h; exact absurd h (by simp)
    · rw [hi] at h
      dsimp only at h
      have hlen : qv1.length = qv.length := qos_val_for_cpus_length hi
      have hstep := qos_val_for_cpus_min_getD hi hcpu
      have hrec := ih h (by rw [hlen]; exact hcpu)
      by_cases hm : cpu ∈ r.cpusAffine
      · rw [if_pos hm] at hstep
        rw [hrec, hstep]
        simp [hm]
      · rw [if_neg hm] at hstep
        rw [hrec, hstep]
        simp [hm]

theorem qos_val_for_reqs_max_getD {reqs : List PMQosRequest}
    {qv qv' : List Int} {cpu : Nat}
    (h : qos_val_for_reqs PM_QOS_MAX reqs qv = some qv')
    (hcpu : cpu < qv.length) :
    qv'.getD cpu 0 =
      ((reqs.filter (fun r => cpu ∈ r.cpusAffine)).map
        (fun r => r.prio)).foldl max (qv.getD cpu 0) := by
  induction reqs generalizing qv with
  | nil =>
    obtain rfl := Option.some.inj h
    simp
  | cons r rs ih =>
    rw [qos_val_for_reqs] at h
    rcases hi : qos_val_for_cpus PM_QOS_MAX r.prio r.cpusAffine qv with _ | qv1
    · rw [hi] at h; exact absurd h (by simp)
    · rw [hi] at h
      dsimp only at h
      have hlen : qv1.length = qv.length := qos_val_for_cpus_length hi
      have hstep := qos_val_for_cpus_max_getD hi hcpu
      have hrec := ih h (by rw [hlen]; exact hcpu)
      by_cases hm : cpu ∈ r.cpusAffine
      · rw [if_pos hm] at hstep
        rw [hrec, hstep]
        simp [hm]
      · rw [if_neg hm] at hstep
        rw [hrec, hstep]
        simp [hm]

/-- `pm_qos_set_value_for_cpus` computes the spec-level per-CPU aggregate
for `PM_QOS_MIN` and `PM_QOS_MAX` constraint sets. -/
theorem set_value_for_cpus_min_max {c : PMQosConstraints} {tpc : List Int}
    {cpu : Nat} (ht : c.ctype = PM_QOS_MIN ∨ c.ctype = PM_QOS_MAX)
    (h : pm_qos_set_value_for_cpus c = some tpc) (hcpu : cpu < NR_CPUS) :
    tpc.getD cpu 0 = perCpuAggregateSpec c cpu := by
  unfold pm_qos_set_value_for_cpus at h
  unfold perCpuAggregateSpec
  rcases ht with ht | ht <;> rw [ht] at h ⊢
  · rw [qos_val_for_reqs_min_getD h (by simpa using hcpu),
      getD_replicate hcpu]
  · rw [qos_val_for_reqs_max_getD h (by simpa using hcpu),
      getD_replicate hcpu]

/-- C3: after every `pm_qos_update_target` call on a `PM_QOS_MIN` or
`PM_QOS_MAX` constraints object, `target_per_cpu[cpu]` is the aggregate
(min resp. max) of the values of exactly the requests whose affinity
mask contains `cpu`, folded from the constraints' `default_value`; and
`pm_qos_request_for_cpu` returns that stored per-CPU value. -/
theorem pm_qos_per_cpu_target (c : PMQosConstraints) (req : PMQosRequest)
    (action : PMQosReqAction) (value : Int) (res : UpdateResult)
    (st : PMQosState) (pm_qos_class cpu : Nat)
    (ht : c.ctype = PM_QOS_MIN ∨ c.ctype = PM_QOS_MAX)
    (hres : pm_qos_update_target c req action value = some res)
    (hcpu : cpu < NR_CPUS) :
    res.c.targetPerCpu.getD cpu 0 = perCpuAggregateSpec res.c cpu ∧
    pm_qos_request_for_cpu st pm_qos_class cpu =
      ((st.getD pm_qos_class nullObject).constraints).targetPerCpu.getD cpu 0 := by
  obtain ⟨hc, hsvc, -⟩ := pm_qos_update_target_char hres
  refine ⟨?_, rfl⟩
  rw [hc]
  exact set_value_for_cpus_min_max ht hsvc hcpu

/-- Witness for C3: CPU 0 of the concrete `PM_QOS_MIN` class after the
add of value 7. -/
theorem pm_qos_per_cpu_target_witness :
    exResultAdd7.c.targetPerCpu.getD 0 0 =
      perCpuAggregateSpec exResultAdd7.c 0 ∧
    pm_qos_request_for_cpu exState 1 0 =
      ((exState.getD 1 nullObject).constraints).targetPerCpu.getD 0 0 :=
  pm_qos_per_cpu_target exConstraintsMin exReq1 PM_QOS_ADD_REQ 7 exResultAdd7
    exState 1 0 (Or.inl (by decide)) (by decide) (by decide)

/-- Counterexample to C2 as stated: updating the sole request of a
`PM_QOS_FORCE_MAX` class to its current value leaves the aggregate
unchanged, yet `pm_qos_update_target` still invokes the notifier chain
and returns 1. -/
theorem pm_qos_update_target_notify_counterexample :
    pm_qos_update_target exConstraintsFMax exReqFMax PM_QOS_UPDATE_REQ 5 =
      some { c := exConstraintsFMax, ret := 1, notified := true } ∧
    pm_qos_get_value exConstraintsFMax =
      pm_qos_get_value
        ({ c := exConstraintsFMax, ret := 1, notified := true } : UpdateResult).c := by
  constructor
  · decide
  · rfl

/-- C2 (amended): for `PM_QOS_MIN`, `PM_QOS_MAX` and `PM_QOS_SUM`
constraints, `pm_qos_update_target` returns 1 exactly when the aggregate
changed and invokes the registered notifier chain exactly when it changed
and a chain is registered; for `PM_QOS_FORCE_MAX` it unconditionally
invokes the chain and returns 1. -/
theorem pm_qos_update_target_notify (c : PMQosConstraints)
    (req : PMQosRequest) (action : PMQosReqAction) (value : Int)
    (res : UpdateResult)
    (hres : pm_qos_update_target c req action value = some res) :
    res.ret = (if c.ctype = PM_QOS_FORCE_MAX then 1
               else if pm_qos_get_value c ≠ pm_qos_get_value res.c then 1
               else 0) ∧
    res.notified = (decide (c.ctype = PM_QOS_FORCE_MAX) ||
               (decide (pm_qos_get_value c ≠ pm_qos_get_value res.c) &&
                c.notifiers)) := by
  obtain ⟨hc, -, hcases⟩ := pm_qos_update_target_char hres
  have hgv : pm_qos_get_value res.c =
      pm_qos_get_value { c with list := target_list c req action value } := by
    rw [hc]
    rfl
  rw [hgv]
  rcases hcases with ⟨hf, hret, hn⟩ | ⟨hf, hch, hret, hn⟩ | ⟨hf, hch, hret, hn⟩
  · rw [hret, hn, if_pos hf, decide_eq_true hf]
    simp
  · rw [hret, hn, if_neg hf, if_pos hch, decide_eq_true hch,
      decide_eq_false hf]
    simp
  · rw [hret, hn, if_neg hf, if_neg (not_not.mpr hch),
      decide_eq_false hf, decide_eq_false (not_not.mpr hch)]
    simp

/-- Witness for the amended C2: the concrete `PM_QOS_MIN` add of value 7
changed the aggregate from 200 to 7, so it returned 1 and notified. -/
theorem pm_qos_update_target_notify_witness :
    exResultAdd7.ret = (if exConstraintsMin.ctype = PM_QOS_FORCE_MAX then 1
               else if pm_qos_get_value exConstraintsMin ≠
                   pm_qos_get_value exResultAdd7.c then 1
               else 0) ∧
    exResultAdd7.notified =
      (decide (exConstraintsMin.ctype = PM_QOS_FORCE_MAX) ||
       (decide (pm_qos_get_value exConstraintsMin ≠
            pm_qos_get_value exResultAdd7.c) &&
        exConstraintsMin.notifiers)) :=
  pm_qos_update_target_notify exConstraintsMin exReq1 PM_QOS_ADD_REQ 7
    exResultAdd7 (by decide)

/-- C5 evaluation: adding a request to a `PM_QOS_SUM` class (such as
`memory_bandwidth`) reaches the `BUG()` branch of
`pm_qos_set_value_for_cpus` (modelled as `none`), although
`pm_qos_get_value` itself supports `PM_QOS_SUM` and would aggregate the
new list to 100. -/
theorem pm_qos_sum_add_reaches_bug :
    pm_qos_update_target exConstraintsSum exReqSum PM_QOS_ADD_REQ 100 =
      none ∧
    pm_qos_get_value
      { exConstraintsSum with list := [{ exReqSum with prio := 100 }] } =
      100 ∧
    pm_qos_set_value_for_cpus
      { exConstraintsSum with list := [{ exReqSum with prio := 100 }] } =
      none := by
  refine ⟨by decide, by decide, by decide⟩

/-! ## Frame property (claim C6) -/

theorem getD_set_ne_obj {l : PMQosState} {i j : Nat} (v : PMQosObject)
    (h : j ≠ i) : (l.set j v).getD i nullObject = l.getD i nullObject := by
  simp [List.getD_eq_getElem?_getD, List.getElem?_set_ne h]

theorem getD_set_self_obj {l : PMQosState} {i : Nat} (v : PMQosObject)
    (h : i < l.length) : (l.set i v).getD i nullObject = v := by
  simp [List.getD_eq_getElem?_getD, List.getElem?_set_self, h]

/-- C6: a `pm_qos_update_target` call through a class's constraints
pointer modifies only that class's object in `pm_qos_array`; every other
class index reads back unchanged, and the array keeps its length. -/
theorem pm_qos_update_target_class_frame (st : PMQosState)
    (pm_qos_class : Nat) (req : PMQosRequest) (action : PMQosReqAction)
    (value : Int) (st1 : PMQosState) (ret : Int) (j : Nat)
    (hres : pm_qos_update_target_class st pm_qos_class req action value =
      some (st1, ret))
    (hj : j ≠ pm_qos_class) :
    st1.getD j nullObject = st.getD j nullObject ∧
    st1.length = st.length := by
  unfold pm_qos_update_target_class at hres
  rcases hu : pm_qos_update_target
      (st.getD pm_qos_class nullObject).constraints req action value with
    _ | res
  · rw [hu] at hres; exact absurd hres (by simp)
  · rw [hu] at hres
    dsimp only at hres
    obtain ⟨rfl, rfl⟩ := Prod.mk.injEq .. ▸ Option.some.inj hres
    exact ⟨getD_set_ne_obj _ (Ne.symm hj), by simp⟩

/-- Witness for C6: updating class 1 of the concrete two-class array
leaves class 0 untouched. -/
theorem pm_qos_update_target_class_frame_witness :
    exStateAfterAdd7.getD 0 nullObject = exState.getD 0 nullObject ∧
    exStateAfterAdd7.length = exState.length :=
  pm_qos_update_target_class_frame exState 1 exReq1 PM_QOS_ADD_REQ 7
    exStateAfterAdd7 1 0 (by decide) (by decide)

theorem find_plist_add_self {r : PMQosRequest} {l : List PMQosRequest}
    (h : ∀ x ∈ l, x.id ≠ r.id) : findReq r.id (plist_add r l) = some r := by
  induction l with
  | nil => simp [findReq, plist_add, List.find?]
  | cons x xs ih =>
    have hx : x.id ≠ r.id := h x (List.mem_cons_self x xs)
    by_cases hp : r.prio < x.prio
    · simp [findReq, plist_add, hp, List.find?]
    · have ih1 := ih fun y hy => h y (List.mem_cons_of_mem x hy)
      simp only [findReq, plist_add, if_neg hp] at ih1 ⊢
      rw [List.find?_cons_of_neg _ (by simpa using hx)]
      exact ih1

/-- A successful `pm_qos_update_target_class` call decomposes into the
underlying `pm_qos_update_target` and a single-index array store. -/
theorem update_target_class_char {st : PMQosState} {pm_qos_class : Nat}
    {req : PMQosRequest} {action : PMQosReqAction} {value : Int}
    {st1 : PMQosState} {ret : Int}
    (hcls : pm_qos_class < st.length)
    (h : pm_qos_update_target_class st pm_qos_class req action value =
      some (st1, ret)) :
    ∃ res, pm_qos_update_target
        (st.getD pm_qos_class nullObject).constraints req action value =
        some res ∧
      st1 = st.set pm_qos_class
        { st.getD pm_qos_class nullObject with constraints := res.c } ∧
      st1.getD pm_qos_class nullObject =
        { st.getD pm_qos_class nullObject with constraints := res.c } ∧
      ret = res.ret := by
  unfold pm_qos_update_target_class at h
  rcases hu : pm_qos_update_target
      (st.getD pm_qos_class nullObject).constraints req action value with
    _ | res
  · rw [hu] at h; exact absurd h (by simp)
  · rw [hu] at h
    dsimp only at h
    obtain ⟨rfl, rfl⟩ := Prod.mk.injEq .. ▸ Option.some.inj h
    exact ⟨res, rfl, rfl, getD_set_self_obj _ hcls, rfl⟩

/-- C7: on an IRQ affinity change, `pm_qos_irq_notify` re-runs the
update with the request's existing value after copying the new mask into
`cpus_affine`; on notifier release, `pm_qos_irq_release` sets the mask
to all CPUs and updates the request to the class default; both recompute
the per-CPU targets. -/
theorem pm_qos_irq_affinity_handlers (st : PMQosState) (req : PMQosRequest)
    (mask : List Nat) (st1 st2 : PMQosState) (ret1 ret2 : Int)
    (hcls : req.pm_qos_class < st.length)
    (hnd : ∀ x ∈ plist_del req.id
        (st.getD req.pm_qos_class nullObject).constraints.list,
      x.id ≠ req.id)
    (h1 : pm_qos_irq_notify st req mask = some (st1, ret1))
    (h2 : pm_qos_irq_release st req = some (st2, ret2)) :
    pm_qos_irq_notify st req mask =
      pm_qos_update_target_class st req.pm_qos_class
        { req with cpusAffine := mask } PM_QOS_UPDATE_REQ req.prio ∧
    findReq req.id
        ((st1.getD req.pm_qos_class nullObject).constraints.list) =
      some { req with
             cpusAffine := mask,
             prio := if req.prio = PM_QOS_DEFAULT_VALUE then
                 (st.getD req.pm_qos_class nullObject).constraints.default_value
               else req.prio } ∧
    pm_qos_set_value_for_cpus
        ((st1.getD req.pm_qos_class nullObject).constraints) =
      some ((st1.getD req.pm_qos_class nullObject).constraints.targetPerCpu) ∧
    findReq req.id
        ((st2.getD req.pm_qos_class nullObject).constraints.list) =
      some { req with
             cpusAffine := cpumask_all,
             prio :=
               (st.getD req.pm_qos_class nullObject).constraints.default_value } ∧
    pm_qos_set_value_for_cpus
        ((st2.getD req.pm_qos_class nullObject).constraints) =
      some ((st2.getD req.pm_qos_class nullObject).constraints.targetPerCpu) := by
  obtain ⟨res1, hu1, -, hg1, -⟩ := update_target_class_char hcls h1
  obtain ⟨res2, hu2, -, hg2, -⟩ := update_target_class_char hcls h2
  obtain ⟨hc1, hsvc1, -⟩ := pm_qos_update_target_char hu1
  obtain ⟨hc2, hsvc2, -⟩ := pm_qos_update_target_char hu2
  refine ⟨rfl, ?_, ?_, ?_, ?_⟩
  · rw [hg1, hc1]
    exact find_plist_add_self
      (r := { req with
              cpusAffine := mask,
              prio := if req.prio = PM_QOS_DEFAULT_VALUE then
                  (st.getD req.pm_qos_class nullObject).constraints.default_value
                else req.prio })
      (l := plist_del req.id
        (st.getD req.pm_qos_class nullObject).constraints.list) hnd
  · rw [hg1, hc1]
    exact hsvc1
  · rw [hg2, hc2]
    have hfind := find_plist_add_self
      (r := { req with
              cpusAffine := cpumask_all,
              prio := if (st.getD req.pm_qos_class nullObject).constraints.default_value =
                  PM_QOS_DEFAULT_VALUE then
                  (st.getD req.pm_qos_class nullObject).constraints.default_value
                else (st.getD req.pm_qos_class nullObject).constraints.default_value })
      (l := plist_del req.id
        (st.getD req.pm_qos_class nullObject).constraints.list) hnd
    nth_rewrite 3 [ite_self] at hfind
    exact hfind
  · rw [hg2, hc2]
    exact hsvc2

/-- Witness for C7: moving the concrete IRQ-affine request from CPU 0 to
CPU 1 and then releasing the notifier. -/
theorem pm_qos_irq_affinity_handlers_witness :
    pm_qos_irq_notify exStateIrq exReqIrq [1] =
      pm_qos_update_target_class exStateIrq exReqIrq.pm_qos_class
        { exReqIrq with cpusAffine := [1] } PM_QOS_UPDATE_REQ exReqIrq.prio ∧
    findReq exReqIrq.id
        ((exStateIrqNotify.getD exReqIrq.pm_qos_class nullObject).constraints.list) =
      some { exReqIrq with
             cpusAffine := [1],
             prio := if exReqIrq.prio = PM_QOS_DEFAULT_VALUE then
                 (exStateIrq.getD exReqIrq.pm_qos_class nullObject).constraints.default_value
               else exReqIrq.prio } ∧
    pm_qos_set_value_for_cpus
        ((exStateIrqNotify.getD exReqIrq.pm_qos_class nullObject).constraints) =
      some ((exStateIrqNotify.getD exReqIrq.pm_qos_class nullObject).constraints.targetPerCpu) ∧
    findReq exReqIrq.id
        ((exStateIrqRelease.getD exReqIrq.pm_qos_class nullObject).constraints.list) =
      some { exReqIrq with
             cpusAffine := cpumask_all,
             prio :=
               (exStateIrq.getD exReqIrq.pm_qos_class nullObject).constraints.default_value } ∧
    pm_qos_set_value_for_cpus
        ((exStateIrqRelease.getD exReqIrq.pm_qos_class nullObject).constraints) =
      some ((exStateIrqRelease.getD exReqIrq.pm_qos_class nullObject).constraints.targetPerCpu) :=
  pm_qos_irq_affinity_handlers exStateIrq exReqIrq [1]
    exStateIrqNotify exStateIrqRelease 0 1 (by decide) (by decide)
    (by decide) (by decide)

theorem flags_foldl_init (x : Nat) (l : List PMQosFlagsRequest) :
    l.foldl (fun val r => val ||| r.flags) x =
      x ||| l.foldl (fun val r => val ||| r.flags) 0 := by
  induction l generalizing x with
  | nil => exact (Nat.or_zero x).symm
  | cons r rs ih =>
    simp only [List.foldl_cons]
    rw [ih (x ||| r.flags), ih (0 ||| r.flags), Nat.zero_or,
      Nat.lor_assoc]

theorem flags_list_or_eq_spec (l : List PMQosFlagsRequest) :
    flags_list_or l = flagsOrSpec l := by
  induction l with
  | nil => rfl
  | cons r rs ih =>
    simp only [flags_list_or, List.foldl_cons] at ih ⊢
    rw [flags_foldl_init (0 ||| r.flags) rs, Nat.zero_or, ih]
    simp [flagsOrSpec]

theorem flagsOrSpec_append_single (l : List PMQosFlagsRequest)
    (r : PMQosFlagsRequest) :
    flagsOrSpec (l ++ [r]) = flagsOrSpec l ||| r.flags := by
  induction l with
  | nil => simp [flagsOrSpec, Nat.zero_or, Nat.or_zero]
  | cons a as ih =>
    simp only [flagsOrSpec, List.map_cons, List.foldr_cons, List.cons_append]
      at ih ⊢
    rw [ih, Nat.lor_assoc]

theorem prev_flags_eq_spec {pqf : PMQosFlags}
    (hinv : pqf.effective_flags = flagsOrSpec pqf.list) :
    (if pqf.list.isEmpty then 0 else pqf.effective_flags) =
      flagsOrSpec pqf.list := by
  cases hl : pqf.list with
  | nil => simp [hl, flagsOrSpec]
  | cons a l => rw [hl] at hinv; simp [hl, hinv]

/-- C8: `pm_qos_update_flags` keeps `effective_flags` equal to the OR of
all requests in the set across every add, update and remove action, and
returns `true` exactly when the effective value (0 for an empty set)
changed across the operation. -/
theorem pm_qos_update_flags_correct (pqf : PMQosFlags)
    (req : PMQosFlagsRequest) (action : PMQosReqAction) (val : Nat)
    (pqf1 : PMQosFlags) (ret : Bool)
    (hinv : pqf.effective_flags = flagsAggregateSpec pqf)
    (hrun : pm_qos_update_flags pqf req action val = (pqf1, ret)) :
    pqf1.effective_flags = flagsAggregateSpec pqf1 ∧
    (ret = true ↔ flagsAggregateSpec pqf ≠ flagsAggregateSpec pqf1) := by
  have hinv' : pqf.effective_flags = flagsOrSpec pqf.list := hinv
  have hmain : pqf1.effective_flags = flagsOrSpec pqf1.list ∧
      ret = decide ((if pqf.list.isEmpty then 0 else pqf.effective_flags) ≠
        (if pqf1.list.isEmpty then 0 else pqf1.effective_flags)) := by
    cases action with
    | PM_QOS_ADD_REQ =>
      simp only [pm_qos_update_flags] at hrun
      obtain ⟨rfl, rfl⟩ := Prod.mk.injEq .. ▸ hrun
      refine ⟨?_, rfl⟩
      simp only [flagsOrSpec_append_single, hinv']
    | PM_QOS_UPDATE_REQ =>
      simp only [pm_qos_update_flags] at hrun
      obtain ⟨rfl, rfl⟩ := Prod.mk.injEq .. ▸ hrun
      refine ⟨?_, rfl⟩
      simp only [pm_qos_flags_remove_req, flagsOrSpec_append_single,
        flags_list_or_eq_spec]
    | PM_QOS_REMOVE_REQ =>
      simp only [pm_qos_update_flags] at hrun
      obtain ⟨rfl, rfl⟩ := Prod.mk.injEq .. ▸ hrun
      refine ⟨?_, rfl⟩
      simp only [pm_qos_flags_remove_req, flags_list_or_eq_spec]
  obtain ⟨hinv1, hret⟩ := hmain
  refine ⟨hinv1, ?_⟩
  rw [hret, prev_flags_eq_spec hinv', prev_flags_eq_spec hinv1]
  simp [flagsAggregateSpec, flagsOrSpec]

/-- Witness for C8: adding a flags request with value 4 to a set whose
effective flags are 3 yields 7 and reports a change. -/
theorem pm_qos_update_flags_correct_witness :
    exFlagsAfter.effective_flags = flagsAggregateSpec exFlagsAfter ∧
    (true = true ↔ flagsAggregateSpec exFlags ≠ flagsAggregateSpec exFlagsAfter) :=
  pm_qos_update_flags_correct exFlags exFlagsReq PM_QOS_ADD_REQ 4
    exFlagsAfter true (by decide) (by decide)

/-! ## Guard conditions (claim C9) -/

/-- C9: `pm_qos_add_request` on an already-active request, and
`pm_qos_update_request`/`pm_qos_remove_request` on an inactive request,
return leaving the whole state (every class's request list, target value
and per-CPU targets) and the request itself untouched. -/
theorem pm_qos_guarded_requests_noop (st : PMQosState)
    (reqActive reqInactive : PMQosRequest) (pm_qos_class : Nat)
    (value new_value : Int) (irqAffinity : Option (List Nat))
    (hA : pm_qos_request_active reqActive = true)
    (hI : pm_qos_request_active reqInactive = false) :
    pm_qos_add_request st reqActive pm_qos_class value irqAffinity =
      some (st, reqActive) ∧
    pm_qos_update_request st reqInactive new_value =
      some (st, reqInactive) ∧
    pm_qos_remove_request st reqInactive = some (st, reqInactive) := by
  refine ⟨?_, ?_, ?_⟩
  · unfold pm_qos_add_request
    rw [if_pos (by simp [hA])]
  · unfold pm_qos_update_request
    rw [if_pos (by simp [hI])]
  · unfold pm_qos_remove_request
    rw [if_pos (by simp [hI])]

/-- Witness for C9: the active `exReq1` (class 1) and the inactive
zeroed request on the concrete two-class state. -/
theorem pm_qos_guarded_requests_noop_witness :
    pm_qos_add_request exState exReq1 1 7 none = some (exState, exReq1) ∧
    pm_qos_update_request exState zeroRequest 5 =
      some (exState, zeroRequest) ∧
    pm_qos_remove_request exState zeroRequest =
      some (exState, zeroRequest) :=
  pm_qos_guarded_requests_noop exState exReq1 zeroRequest 1 7 5 none
    (by decide) (by decide)

/-! ## Misc-device interface (claim C10) -/

/-- Deleting a freshly inserted node recovers the original list. -/
theorem plist_del_plist_add {r : PMQosRequest} {l : List PMQosRequest}
    (h : ∀ x ∈ l, x.id ≠ r.id) : plist_del r.id (plist_add r l) = l := by
  induction l with
  | nil => simp [plist_add, plist_del]
  | cons x xs ih =>
    have hx : x.id ≠ r.id := h x (List.mem_cons_self x xs)
    by_cases hp : r.prio < x.prio
    · simp [plist_add, plist_del, hp]
    · simp only [plist_add, if_neg hp, plist_del, if_neg hx]
      rw [ih fun y hy => h y (List.mem_cons_of_mem x hy)]

/-- A minor found by `find_pm_qos_object_by_minor` names a real class
(index at least `PM_QOS_CPU_DMA_LATENCY` = 1). -/
theorem find_by_minor_pos {st : PMQosState} {minor pm_qos_class : Nat}
    (h : find_pm_qos_object_by_minor st minor = some pm_qos_class) :
    1 ≤ pm_qos_class := by
  unfold find_pm_qos_object_by_minor at h
  have hm := List.mem_of_find?_eq_some h
  rw [List.mem_range'] at hm
  obtain ⟨i, -, rfl⟩ := hm
  omega

/-- `pm_qos_add_request` on a freshly `kzalloc`ed request reduces to the
`PM_QOS_REQ_ALL_CORES` path: the guard passes, the mask becomes all CPUs
and the class is recorded before the `PM_QOS_ADD_REQ` update. -/
theorem add_request_fresh (st : PMQosState) (pm_qos_class : Nat)
    (value : Int) (irqAffinity : Option (List Nat)) (newId : Nat) :
    pm_qos_add_request st { zeroRequest with id := newId } pm_qos_class
        value irqAffinity =
      match pm_qos_update_target_class st pm_qos_class
          { id := newId, prio := 0, cpusAffine := cpumask_all,
            pm_qos_class := pm_qos_class, rtype := PM_QOS_REQ_ALL_CORES,
            irq := 0 } PM_QOS_ADD_REQ value with
      | none => none
      | some (st1, _) =>
        some (st1, { id := newId, prio := 0, cpusAffine := cpumask_all,
                     pm_qos_class := pm_qos_class,
                     rtype := PM_QOS_REQ_ALL_CORES, irq := 0 }) := rfl

/-- C10: opening a PM QoS misc device whose minor matches a class adds a
fresh request at `PM_QOS_DEFAULT_VALUE` (stored as the class default) to
that class; a minor matching no class yields `-EPERM`, an allocation
failure `-ENOMEM`; releasing the file removes exactly that request, so
the class's list and aggregate target are recomputed without it. -/
theorem pm_qos_power_open_release_correct (st : PMQosState)
    (minorGood minorBad newId pm_qos_class : Nat) (st1 st2 : PMQosState)
    (req1 : PMQosRequest)
    (hbad : find_pm_qos_object_by_minor st minorBad = none)
    (hfound : find_pm_qos_object_by_minor st minorGood = some pm_qos_class)
    (hcls : pm_qos_class < st.length)
    (hfresh : ∀ x ∈ (st.getD pm_qos_class nullObject).constraints.list,
      x.id ≠ newId)
    (hopen : pm_qos_power_open st minorGood true newId =
      some (.ok (st1, req1)))
    (hrel : pm_qos_power_release st1 req1 = some st2) :
    pm_qos_power_open st minorBad true newId = some (.error EPERM_err) ∧
    pm_qos_power_open st minorGood false newId = some (.error ENOMEM_err) ∧
    req1.pm_qos_class = pm_qos_class ∧
    findReq newId ((st1.getD pm_qos_class nullObject).constraints.list) =
      some { zeroRequest with
             id := newId,
             cpusAffine := cpumask_all,
             pm_qos_class := pm_qos_class,
             prio := (st.getD pm_qos_class nullObject).constraints.default_value } ∧
    (st2.getD pm_qos_class nullObject).constraints.list =
      (st.getD pm_qos_class nullObject).constraints.list ∧
    (st2.getD pm_qos_class nullObject).constraints.target_value =
      pm_qos_get_value ((st2.getD pm_qos_class nullObject).constraints) := by
  rw [pm_qos_power_open, hfound] at hopen
  have hopen2 : (match pm_qos_add_request st { zeroRequest with id := newId }
        pm_qos_class PM_QOS_DEFAULT_VALUE none with
      | none => none
      | some (stx, reqx) => some (Except.ok (stx, reqx))) =
      some (.ok (st1, req1)) := hopen
  rw [add_request_fresh] at hopen2
  rcases hu1 : pm_qos_update_target_class st pm_qos_class
      { id := newId, prio := 0, cpusAffine := cpumask_all,
        pm_qos_class := pm_qos_class, rtype := PM_QOS_REQ_ALL_CORES,
        irq := 0 } PM_QOS_ADD_REQ PM_QOS_DEFAULT_VALUE with _ | p1
  · rw [hu1] at hopen2
    exact absurd hopen2 (by simp)
  rcases p1 with ⟨stx, retx⟩
  rw [hu1] at hopen2
  dsimp only at hopen2
  have hok := Option.some.inj hopen2
  injection hok with hok2
  obtain ⟨rfl, rfl⟩ := Prod.mk.injEq .. ▸ hok2
  obtain ⟨res1, hut1, hset1, hg1, -⟩ := update_target_class_char hcls hu1
  obtain ⟨hc1, -, -⟩ := pm_qos_update_target_char hut1
  have hlen1 : stx.length = st.length := by rw [hset1]; simp
  have hcls1 : pm_qos_class < stx.length := by omega
  have hactive : pm_qos_request_active
      { id := newId, prio := 0, cpusAffine := cpumask_all,
        pm_qos_class := pm_qos_class, rtype := PM_QOS_REQ_ALL_CORES,
        irq := 0 } = true := by
    have := find_by_minor_pos hfound
    simp only [pm_qos_request_active]
    simp
    omega
  rw [pm_qos_power_release, pm_qos_remove_request,
    if_neg (by rw [hactive]; simp)] at hrel
  rcases hu2 : pm_qos_update_target_class stx pm_qos_class
      { id := newId, prio := 0, cpusAffine := cpumask_all,
        pm_qos_class := pm_qos_class, rtype := PM_QOS_REQ_ALL_CORES,
        irq := 0 } PM_QOS_REMOVE_REQ PM_QOS_DEFAULT_VALUE with _ | p2
  · rw [hu2] at hrel
    exact absurd hrel (by simp)
  rcases p2 with ⟨sty, rety⟩
  rw [hu2] at hrel
  dsimp only at hrel
  obtain rfl := Option.some.inj hrel
  obtain ⟨res2, hut2, -, hg2, -⟩ := update_target_class_char hcls1 hu2
  obtain ⟨hc2, -, -⟩ := pm_qos_update_target_char hut2
  have hdefault : (if (PM_QOS_DEFAULT_VALUE : Int) = PM_QOS_DEFAULT_VALUE
      then (st.getD pm_qos_class nullObject).constraints.default_value
      else PM_QOS_DEFAULT_VALUE) =
      (st.getD pm_qos_class nullObject).constraints.default_value :=
    if_pos rfl
  refine ⟨?_, ?_, rfl, ?_, ?_, ?_⟩
  · rw [pm_qos_power_open, hbad]
  · rw [pm_qos_power_open, hfound]
    rfl
  · rw [hg1, hc1]
    have hfind := find_plist_add_self
      (r := { zeroRequest with
              id := newId,
              cpusAffine := cpumask_all,
              pm_qos_class := pm_qos_class,
              prio := if (PM_QOS_DEFAULT_VALUE : Int) = PM_QOS_DEFAULT_VALUE
                  then (st.getD pm_qos_class nullObject).constraints.default_value
                  else PM_QOS_DEFAULT_VALUE })
      (l := (st.getD pm_qos_class nullObject).constraints.list)
      hfresh
    nth_rewrite 3 [hdefault] at hfind
    exact hfind
  · rw [hg2, hc2, hg1, hc1]
    exact plist_del_plist_add
      (r := { zeroRequest with
              id := newId,
              cpusAffine := cpumask_all,
              pm_qos_class := pm_qos_class,
              prio := if (PM_QOS_DEFAULT_VALUE : Int) = PM_QOS_DEFAULT_VALUE
                  then (st.getD pm_qos_class nullObject).constraints.default_value
                  else PM_QOS_DEFAULT_VALUE })
      (l := (st.getD pm_qos_class nullObject).constraints.list)
      hfresh
  · rw [hg2, hc2]
    rfl

/-- Witness for C10: opening minor 5 on the concrete state adds request
9 at the class default, minor 77 gives `-EPERM`, a failed allocation
gives `-ENOMEM`, and releasing restores the original state. -/
theorem pm_qos_power_open_release_correct_witness :
    pm_qos_power_open exState 77 true 9 = some (.error EPERM_err) ∧
    pm_qos_power_open exState 5 false 9 = some (.error ENOMEM_err) ∧
    exReqOpen.pm_qos_class = 1 ∧
    findReq 9 ((exStateOpen.getD 1 nullObject).constraints.list) =
      some { zeroRequest with
             id := 9,
             cpusAffine := cpumask_all,
             pm_qos_class := 1,
             prio := (exState.getD 1 nullObject).constraints.default_value } ∧
    (exState.getD 1 nullObject).constraints.list =
      (exState.getD 1 nullObject).constraints.list ∧
    (exState.getD 1 nullObject).constraints.target_value =
      pm_qos_get_value ((exState.getD 1 nullObject).constraints) :=
  pm_qos_power_open_release_correct exState 5 77 9 1 exStateOpen exState
    exReqOpen (by decide) (by decide) (by decide) (by decide) (by rfl)
    (by rfl)
